import Mathlib

set_option maxHeartbeats 1000000

/-!
Verification of the query-builder `src/Builder.js` (JsModel).

The builder holds two ordered, key-unique stores (constraints and appended
parameters, both realised by the external keyed `js_collection` Collection),
exposes a fluent mutation API, serialises its state to a URL query string,
and dispatches HTTP responses to success/error callbacks by status code.

JavaScript values stored in the builder are modelled by `JsValue`.  Composite
values (arrays, objects) carry an allocation tag modelling JS heap identity:
two composites denote the same heap object exactly when their tags are equal.
Numbers are modelled by `Int` (the specified behaviour only involves integral
values; IEEE-754 rounding is out of scope).  `NaN` is a separate constructor.
-/

inductive JsValue where
| vnull : JsValue
| vnan : JsValue
| vnum : Int → JsValue
| vstr : String → JsValue
| varr : Nat → List JsValue → JsValue
| vobj : Nat → List (String × JsValue) → JsValue

/-- JS `value instanceof Object`: true exactly for arrays and plain objects. -/
def isObject : JsValue → Bool
| .varr _ _ => true
| .vobj _ _ => true
| _ => false

mutual

/-- JS string coercion `String(v)` as used by template literals in
`toQueryString`: numbers print in decimal, arrays join their elements with
`,` (null elements print empty), objects print `[object Object]`. -/
def jsToString : JsValue → String
| .vnull => "null"
| .vnan => "NaN"
| .vnum n => toString n
| .vstr s => s
| .varr _ xs => String.intercalate "," (jsArrElems xs)
| .vobj _ _ => "[object Object]"

def jsArrElems : List JsValue → List String
| [] => []
| .vnull :: xs => "" :: jsArrElems xs
| x :: xs => jsToString x :: jsArrElems xs

end

/-- Upper-case hexadecimal digit, for percent-escapes. -/
def hexDigit (n : Nat) : Char :=
  if n < 10 then Char.ofNat (48 + n) else Char.ofNat (55 + n)

/-- Percent-escape of one byte, e.g. `%2C`. -/
def percentByte (b : Nat) : String :=
  String.mk ['%', hexDigit (b / 16 % 16), hexDigit (b % 16)]

/-- UTF-8 byte sequence of a Unicode code point. -/
def utf8Bytes (n : Nat) : List Nat :=
  if n < 0x80 then [n]
  else if n < 0x800 then [0xC0 + n / 64, 0x80 + n % 64]
  else if n < 0x10000 then [0xE0 + n / 4096, 0x80 + n / 64 % 64, 0x80 + n % 64]
  else [0xF0 + n / 262144, 0x80 + n / 4096 % 64, 0x80 + n / 64 % 64, 0x80 + n % 64]

/-- Characters left unescaped by JS `encodeURIComponent`:
`A-Z a-z 0-9 - _ . ! ~ * ' ( )`.  (Code point 39 is the apostrophe.) -/
def uriUnescaped (c : Char) : Bool :=
  c.isAlpha || c.isDigit || "-_.!~*()".contains c || c.toNat = 39

/-- JS `encodeURIComponent`: percent-escapes the UTF-8 bytes of every
character outside the unescaped set. -/
def encodeURIComponent (s : String) : String :=
  s.data.foldl
    (fun acc c =>
      acc ++ (if uriUnescaped c then String.mk [c]
              else String.join ((utf8Bytes c.toNat).map percentByte)))
    ""

/-- A constraint entry `{filter, value}` of the constraint store. -/
structure Constraint where
  filter : String
  value : JsValue

/-- A parameter entry `{name, value}` of the parameter (appends) store. -/
structure Param where
  name : String
  value : JsValue

/-- Builder state: the two stores.  The model descriptor (base URL and
model/collection factories) is an external collaborator and is not part of
the query state. -/
structure Builder where
  _constraints : List Constraint
  appends : List Param

/-- Modelled from the spec: the keyed `js_collection` Collection used for both
stores is not part of this repository's sources; per spec §4.1/§4.2 it is an
ordered collection with first-match lookup by key, push-to-end insertion and
stable insertion-order iteration.  `collGetC` is `Collection.get` on the
constraint store. -/
def collGetC (l : List Constraint) (f : String) : Option Constraint :=
  l.find? (fun c => c.filter == f)

/-- Modelled from the spec: `Collection.get` on the parameter store. -/
def collGetP (l : List Param) (n : String) : Option Param :=
  l.find? (fun p => p.name == n)

/-- In-place mutation `constraint.value = v` of the first constraint keyed
`f`, as performed by `where` on the entry returned by `Collection.get`. -/
def updateFirstC (f : String) (v : JsValue) : List Constraint → List Constraint
| [] => []
| c :: cs => if c.filter == f then { c with value := v } :: cs
             else c :: updateFirstC f v cs

/-- In-place mutation `param.value = v` of the first parameter named `n`. -/
def updateFirstP (n : String) (v : JsValue) : List Param → List Param
| [] => []
| p :: ps => if p.name == n then { p with value := v } :: ps
             else p :: updateFirstP n v ps

/-- Source `constructor(model)`: empty constraint store; parameter store pre-seeded
with `limit = 15` and `page = 1`. -/
def newBuilder : Builder :=
  { _constraints := []
    appends := [⟨"limit", .vnum 15⟩, ⟨"page", .vnum 1⟩] }

/-- The value a JS method call produces: `return this` or falling off the
end (`undefined`). -/
inductive JsRet where
| self : JsRet
| undef : JsRet
deriving DecidableEq

/-- The exceptions Builder methods can raise. -/
inductive JsErr where
| duplicateVariableException : String → JsErr
| unknownVariableException : String → JsErr
| typeError : JsErr
deriving DecidableEq

/-- Source `hasConstraint(filter)`. -/
def hasConstraint (b : Builder) (f : String) : Bool :=
  (collGetC b._constraints f).isSome

/-- Source `hasVariable(name)`. -/
def hasVariable (b : Builder) (n : String) : Bool :=
  (collGetP b.appends n).isSome

/-- Source `getVariable(name, default_result = null)`. -/
def getVariable (b : Builder) (n : String) (default_result : JsValue) : JsValue :=
  if hasVariable b n then
    match collGetP b.appends n with
    | some p => p.value
    | none => default_result
  else default_result

/-- Source `append(name, value)`: throws `DuplicateVariableException` if the name
exists, otherwise pushes `{name, value}`; returns `this`.  The pair is
(state after the call, outcome); a throw leaves the state unchanged. -/
def Builder.append (b : Builder) (n : String) (v : JsValue) :
    Builder × Except JsErr JsRet :=
  if hasVariable b n then
    (b, .error (.duplicateVariableException
      ("Variable \"" ++ n ++ "\" has already been appended!")))
  else
    ({ b with appends := b.appends ++ [⟨n, v⟩] }, .ok .self)

/-- Source `updateVariable(name, value)`: mutates the existing parameter's value or
throws `UnknownVariableException`.  The source has no `return this` here, so
the call evaluates to `undefined`. -/
def Builder.updateVariable (b : Builder) (n : String) (v : JsValue) :
    Builder × Except JsErr JsRet :=
  if hasVariable b n then
    ({ b with appends := updateFirstP n v b.appends }, .ok .undef)
  else
    (b, .error (.unknownVariableException
      ("Cannot update unknown variable with name \"" ++ n ++ "\"!")))

/-- Source `where(filter, value)`: upsert into the constraint store (push when
absent, mutate the found entry's value when present); returns `this`. -/
def Builder.whereC (b : Builder) (f : String) (v : JsValue) : Builder × JsRet :=
  match collGetC b._constraints f with
  | none => ({ b with _constraints := b._constraints ++ [⟨f, v⟩] }, .self)
  | some _ => ({ b with _constraints := updateFirstC f v b._constraints }, .self)

/-- Source `orderBy(...orderings)`: stores the variadic-argument array (a fresh JS
array, tagged `tag`) under `order`, via `updateVariable` when present and
`append` otherwise; returns `this`. -/
def Builder.orderBy (b : Builder) (tag : Nat) (orderings : List JsValue) :
    Builder × Except JsErr JsRet :=
  if hasVariable b "order" then
    match b.updateVariable "order" (.varr tag orderings) with
    | (b', .ok _) => (b', .ok .self)
    | (b', .error e) => (b', .error e)
  else
    match b.append "order" (.varr tag orderings) with
    | (b', .ok _) => (b', .ok .self)
    | (b', .error e) => (b', .error e)

/-- Source `setLimit(value)`: update when `limit` exists, else append; returns
`this`. -/
def Builder.setLimit (b : Builder) (v : JsValue) : Builder × Except JsErr JsRet :=
  if hasVariable b "limit" then
    match b.updateVariable "limit" v with
    | (b', .ok _) => (b', .ok .self)
    | (b', .error e) => (b', .error e)
  else
    match b.append "limit" v with
    | (b', .ok _) => (b', .ok .self)
    | (b', .error e) => (b', .error e)

/-- Source `getLimit()`. -/
def getLimit (b : Builder) : JsValue :=
  if hasVariable b "limit" then
    match collGetP b.appends "limit" with
    | some p => p.value
    | none => .vnum (-1)
  else .vnum (-1)

/-- Source `currentPage()`: reads `this.appends.get('page').value`; a missing
`page` entry would make the member access throw a `TypeError`. -/
def currentPage (b : Builder) : Except JsErr JsValue :=
  match collGetP b.appends "page" with
  | some p => .ok p.value
  | none => .error .typeError

/-- Source `setPage(page)`: writes `this.appends.get('page').value = page`;
returns `this`. -/
def Builder.setPage (b : Builder) (v : JsValue) : Builder × Except JsErr JsRet :=
  match collGetP b.appends "page" with
  | some _ => ({ b with appends := updateFirstP "page" v b.appends }, .ok .self)
  | none => (b, .error .typeError)

/-- JS `x + 1` for a stored page value: numeric increment on numbers, string
concatenation on strings, `null + 1 === 1`, `NaN + 1 === NaN`; composite
values coerce to strings and concatenate. -/
def jsAddOne : JsValue → JsValue
| .vnum n => .vnum (n + 1)
| .vstr s => .vstr (s ++ "1")
| .vnull => .vnum 1
| .vnan => .vnan
| v => .vstr (jsToString v ++ "1")

/-- JS `x - 1`: numeric decrement on numbers, `null - 1 === -1`; other
values coerce through `Number(..)` (string-to-number parsing is not modelled:
the page is integral in every specified behaviour) giving `NaN` here. -/
def jsSubOne : JsValue → JsValue
| .vnum n => .vnum (n - 1)
| .vnull => .vnum (-1)
| _ => .vnan

/-- Source `incrementPage()`: `setPage(currentPage() + 1); return this`. -/
def Builder.incrementPage (b : Builder) : Builder × Except JsErr JsRet :=
  match currentPage b with
  | .error e => (b, .error e)
  | .ok v =>
    match b.setPage (jsAddOne v) with
    | (b', .ok _) => (b', .ok .self)
    | (b', .error e) => (b', .error e)

/-- Source `decrementPage()`: `setPage(currentPage() - 1); return this`. -/
def Builder.decrementPage (b : Builder) : Builder × Except JsErr JsRet :=
  match currentPage b with
  | .error e => (b, .error e)
  | .ok v =>
    match b.setPage (jsSubOne v) with
    | (b', .ok _) => (b', .ok .self)
    | (b', .error e) => (b', .error e)

/-- Separator: `'?'` while `first` is still true, `'&'` afterwards. -/
def qsSep (first : Bool) : String := if first then "?" else "&"

/-- One constraint's emitted pair:
`filters[<encoded filter>][]=<encoded value>`. -/
def constraintPair (c : Constraint) : String :=
  "filters[" ++ encodeURIComponent c.filter ++ "][]="
    ++ encodeURIComponent (jsToString c.value)

/-- One element pair of an array-valued parameter: `name[]=<encoded elem>`. -/
def arrPair (n : String) (x : JsValue) : String :=
  encodeURIComponent n ++ "[]=" ++ encodeURIComponent (jsToString x)

/-- One field pair of an object-valued parameter:
`name[<encoded key>]=<encoded value>`. -/
def objPair (n : String) (kv : String × JsValue) : String :=
  encodeURIComponent n ++ "[" ++ encodeURIComponent kv.1 ++ "]="
    ++ encodeURIComponent (jsToString kv.2)

/-- A scalar parameter's pair: `name=<encoded value>`. -/
def scalarPair (n : String) (v : JsValue) : String :=
  encodeURIComponent n ++ "=" ++ encodeURIComponent (jsToString v)

/-- The constraints loop of `toQueryString`: the accumulator carries
`(query_string, first)`; `first` is cleared after each constraint. -/
def constraintsFold : List Constraint → String × Bool → String × Bool
| [], a => a
| c :: cs, a => constraintsFold cs (a.1 ++ qsSep a.2 ++ constraintPair c, false)

/-- The body of the appends loop of `toQueryString` for one item.  Note the
source clears `first` only once per item, after the branch, so every pair of
an array- or object-valued item reuses the separator chosen by the `first`
value from before the item. -/
def appendItem (p : Param) (a : String × Bool) : String :=
  match p.value with
  | .varr _ xs => xs.foldl (fun s x => s ++ qsSep a.2 ++ arrPair p.name x) a.1
  | .vobj _ fs => fs.foldl (fun s kv => s ++ qsSep a.2 ++ objPair p.name kv) a.1
  | v => a.1 ++ qsSep a.2 ++ scalarPair p.name v

/-- The appends loop of `toQueryString`. -/
def appendsFold : List Param → String × Bool → String × Bool
| [], a => a
| p :: ps, a => appendsFold ps (appendItem p a, false)

/-- Source `toQueryString()`: constraints first, then parameters. -/
def toQueryString (b : Builder) : String :=
  (appendsFold b.appends (constraintsFold b._constraints ("", true))).1

/-- Modelled from the spec (§4.4, for comparison with `toQueryString`): the
pairs one parameter emits — one `name[]=` pair per array element in list
order, one `name[key]=` pair per object field, a single `name=` pair for a
scalar. -/
def paramPairs (p : Param) : List String :=
  match p.value with
  | .varr _ xs => xs.map (arrPair p.name)
  | .vobj _ fs => fs.map (objPair p.name)
  | v => [scalarPair p.name v]

/-- Modelled from the spec (§4.4): all emitted pairs, constraints first in
store order, then parameters in store order. -/
def specPairs (b : Builder) : List String :=
  b._constraints.map constraintPair ++ b.appends.flatMap paramPairs

/-- Modelled from the spec (§4.4): `'?'` before the very first emitted pair
and `'&'` before every subsequent pair. -/
def specToQueryString (b : Builder) : String :=
  match specPairs b with
  | [] => ""
  | p :: ps => "?" ++ p ++ String.join (ps.map (fun q => "&" ++ q))

mutual

/-- The npm `clone` package: a deep structural copy.  Every composite node of
the copy is a freshly allocated JS object, modelled by re-tagging each node
with a fresh tag drawn from a counter `c`; primitives are returned as-is.
(The source values are trees; `clone`'s cycle handling is not exercised.)
Returns the copy and the next unused tag. -/
def cloneV : JsValue → Nat → JsValue × Nat
| .varr _ xs, c => let r := cloneL xs (c + 1); (.varr c r.1, r.2)
| .vobj _ fs, c => let r := cloneF fs (c + 1); (.vobj c r.1, r.2)
| v, _c => (v, _c)

def cloneL : List JsValue → Nat → List JsValue × Nat
| [], c => ([], c)
| v :: vs, c =>
  let r := cloneV v c
  let rs := cloneL vs r.2
  (r.1 :: rs.1, rs.2)

def cloneF : List (String × JsValue) → Nat → List (String × JsValue) × Nat
| [], c => ([], c)
| kv :: fs, c =>
  let r := cloneV kv.2 c
  let rs := cloneF fs r.2
  ((kv.1, r.1) :: rs.1, rs.2)

end

mutual

/-- All allocation tags occurring in a value (the identities of the JS heap
objects reachable from it). -/
def tagsV : JsValue → List Nat
| .varr t xs => t :: tagsL xs
| .vobj t fs => t :: tagsF fs
| _ => []

def tagsL : List JsValue → List Nat
| [] => []
| v :: vs => tagsV v ++ tagsL vs

def tagsF : List (String × JsValue) → List Nat
| [] => []
| kv :: fs => tagsV kv.2 ++ tagsF fs

end

/-- Tag-free structure of a value: what `==`-style value equality sees. -/
inductive JsShape where
| snull : JsShape
| snan : JsShape
| snum : Int → JsShape
| sstr : String → JsShape
| sarr : List JsShape → JsShape
| sobj : List (String × JsShape) → JsShape

mutual

/-- The shape (structural content) of a value, forgetting identities. -/
def shapeV : JsValue → JsShape
| .vnull => .snull
| .vnan => .snan
| .vnum n => .snum n
| .vstr s => .sstr s
| .varr _ xs => .sarr (shapeL xs)
| .vobj _ fs => .sobj (shapeF fs)

def shapeL : List JsValue → List JsShape
| [] => []
| v :: vs => shapeV v :: shapeL vs

def shapeF : List (String × JsValue) → List (String × JsShape)
| [] => []
| kv :: fs => (kv.1, shapeV kv.2) :: shapeF fs

end

/-- The identity (tag) of a value's top-level heap object; `none` for
primitives. -/
def headTag : JsValue → Option Nat
| .varr t _ => some t
| .vobj t _ => some t
| _ => none

mutual

/-- Effect, on a value, of mutating the heap object with identity `t` into
`u`: every occurrence of the object tagged `t` becomes `u`.  A caller who
mutates a value returned by the builder performs such a step on some tag of
the returned value. -/
def replV (t : Nat) (u : JsValue) : JsValue → JsValue
| .varr t' xs => if t' = t then u else .varr t' (replL t u xs)
| .vobj t' fs => if t' = t then u else .vobj t' (replF t u fs)
| v => v

def replL (t : Nat) (u : JsValue) : List JsValue → List JsValue
| [] => []
| v :: vs => replV t u v :: replL t u vs

def replF (t : Nat) (u : JsValue) : List (String × JsValue) → List (String × JsValue)
| [] => []
| kv :: fs => (kv.1, replV t u kv.2) :: replF t u fs

end

/-- All values held inside the builder's two stores. -/
def builderValues (b : Builder) : List JsValue :=
  b._constraints.map Constraint.value ++ b.appends.map Param.value

/-- Every tag reachable from the builder's stored values is below `c`
(i.e. `c` is a fresh-allocation bound for the builder's heap objects). -/
def builderTagsLt (b : Builder) (c : Nat) : Bool :=
  (builderValues b).all (fun v => (tagsV v).all (fun t => t < c))

/-- Source `getConstraintValue(filter)`: the found constraint's value, deep-copied
when it is an `Object` (array/object), as-is otherwise; `null` when the
filter is unset.  `c` is the fresh-tag counter consumed by `clone`. -/
def getConstraintValue (b : Builder) (f : String) (c : Nat) : Option JsValue :=
  match collGetC b._constraints f with
  | some con =>
    some (if isObject con.value then (cloneV con.value c).1 else con.value)
  | none => none

/-- Source `orderingBy()`: a clone of the `order` parameter's value when set,
`null` otherwise. -/
def orderingBy (b : Builder) (c : Nat) : Option JsValue :=
  if hasVariable b "order" then some (cloneV (getVariable b "order" .vnull) c).1
  else none

/-- An observable effect of the status-code dispatch tables of the four
request operations: which callback invocations (or uncaught runtime errors)
a response produces. -/
inductive AjaxEvent where
| errorCall : Option String → Nat → AjaxEvent
| successCall : String → AjaxEvent
| jsTypeError : AjaxEvent
deriving DecidableEq

/-- Source `get(success, error)`'s `statusCode` table, applied to a response with
the given status and body.  `hasSuccess`/`hasError` say whether the
corresponding callback argument is a function.  The source's 422 handler
passes `500` as the status argument (line 249), and its 200 handler calls
`success` without the `typeof` guard the other operations use (line 255), so
a missing success callback raises a `TypeError`.  Statuses absent from the
table produce no callback. -/
def getStatusDispatch (hasSuccess hasError : Bool) (status : Nat)
    (body : String) : List AjaxEvent :=
  if status = 500 then (if hasError then [.errorCall (some body) 500] else [])
  else if status = 422 then (if hasError then [.errorCall (some body) 500] else [])
  else if status = 200 then
    (if hasSuccess then [.successCall body] else [.jsTypeError])
  else []

/-- Source `update(attributes, success, error)`'s `statusCode` table. -/
def updateStatusDispatch (hasSuccess hasError : Bool) (status : Nat)
    (body : String) : List AjaxEvent :=
  if status = 500 then (if hasError then [.errorCall (some body) 500] else [])
  else if status = 422 then (if hasError then [.errorCall (some body) 422] else [])
  else if status = 200 then (if hasSuccess then [.successCall body] else [])
  else []

/-- Source `insert(attributes, success, error)`'s `statusCode` table. -/
def insertStatusDispatch (hasSuccess hasError : Bool) (status : Nat)
    (body : String) : List AjaxEvent :=
  if status = 500 then (if hasError then [.errorCall (some body) 500] else [])
  else if status = 422 then (if hasError then [.errorCall (some body) 422] else [])
  else if status = 200 then (if hasSuccess then [.successCall body] else [])
  else []

/-- Source `deleteResults(success, error)`'s `statusCode` table; it additionally
handles 403 by `error(null, 403)`. -/
def deleteResultsStatusDispatch (hasSuccess hasError : Bool) (status : Nat)
    (body : String) : List AjaxEvent :=
  if status = 500 then (if hasError then [.errorCall (some body) 500] else [])
  else if status = 422 then (if hasError then [.errorCall (some body) 422] else [])
  else if status = 403 then (if hasError then [.errorCall none 403] else [])
  else if status = 200 then (if hasSuccess then [.successCall body] else [])
  else []

/-- The deep-copy-on-read contract of `getConstraintValue` and `orderingBy`
(spec §4.3): unset lookups give null; a composite stored value comes back as
a value-equal (`shapeV`) but non-identical (`headTag`) copy, none of whose
heap objects occur in the builder's stores, so mutating any of them
(`replV`) leaves every stored value unchanged. -/
def DeepCopySpec (b : Builder) (f : String) (c : Nat) : Prop :=
  (getConstraintValue b f c = none ↔ hasConstraint b f = false) ∧
  (∀ con, collGetC b._constraints f = some con → isObject con.value = true →
    ∃ v', getConstraintValue b f c = some v' ∧
      shapeV v' = shapeV con.value ∧
      headTag v' ≠ headTag con.value ∧
      ∀ t, t ∈ tagsV v' → ∀ u w, w ∈ builderValues b → replV t u w = w) ∧
  (hasVariable b "order" = false → orderingBy b c = none) ∧
  (∀ p, collGetP b.appends "order" = some p → isObject p.value = true →
    ∃ v', orderingBy b c = some v' ∧
      shapeV v' = shapeV p.value ∧
      headTag v' ≠ headTag p.value ∧
      ∀ t, t ∈ tagsV v' → ∀ u w, w ∈ builderValues b → replV t u w = w)

/-- Condition under which the per-item `first` flag of `toQueryString`
agrees with the spec's per-pair separator rule: the first processed store
item (a constraint, or else the first parameter) emits exactly one pair.
Constraints always emit one pair each; a parameter emits one pair unless its
value is an array or object of length ≠ 1. -/
def headEmitsSingle (b : Builder) : Bool :=
  !b._constraints.isEmpty ||
  (match b.appends with
   | [] => true
   | p :: _ =>
     match p.value with
     | .varr _ xs => xs.length == 1
     | .vobj _ fs => fs.length == 1
     | _ => true)

/-- C1: the error callback is invoked with the response body and the actual
status code on 422/500 responses (plus `error(null, 403)` for delete).  This
holds for `update`, `insert` and `deleteResults`, and for `get` on 500, but
`get`'s 422 handler passes status `500` instead of `422` (Builder.js:249),
contradicting the dispatch key of its own `statusCode` table. -/
theorem get422PassesWrongStatus :
    getStatusDispatch true true 422 "body" = [.errorCall (some "body") 500] ∧
    getStatusDispatch true true 500 "body" = [.errorCall (some "body") 500] ∧
    updateStatusDispatch true true 422 "body" = [.errorCall (some "body") 422] ∧
    updateStatusDispatch true true 500 "body" = [.errorCall (some "body") 500] ∧
    insertStatusDispatch true true 422 "body" = [.errorCall (some "body") 422] ∧
    insertStatusDispatch true true 500 "body" = [.errorCall (some "body") 500] ∧
    deleteResultsStatusDispatch true true 422 "body" = [.errorCall (some "body") 422] ∧
    deleteResultsStatusDispatch true true 500 "body" = [.errorCall (some "body") 500] ∧
    deleteResultsStatusDispatch true true 403 "body" = [.errorCall none 403] := by
  decide

/-- C2: omitted callbacks make response dispatch complete silently.  True for
every status of `update`, `insert` and `deleteResults` and for 403/422/500 of
`get`, but a 200 response to `get` with no success callback calls `success`
unguarded (Builder.js:255) and so raises a `TypeError`. -/
theorem get200MissingSuccessThrows :
    getStatusDispatch false false 200 "payload" = [.jsTypeError] ∧
    getStatusDispatch false false 403 "payload" = [] ∧
    getStatusDispatch false false 422 "payload" = [] ∧
    getStatusDispatch false false 500 "payload" = [] ∧
    updateStatusDispatch false false 200 "payload" = [] ∧
    updateStatusDispatch false false 403 "payload" = [] ∧
    updateStatusDispatch false false 422 "payload" = [] ∧
    updateStatusDispatch false false 500 "payload" = [] ∧
    insertStatusDispatch false false 200 "payload" = [] ∧
    insertStatusDispatch false false 403 "payload" = [] ∧
    insertStatusDispatch false false 422 "payload" = [] ∧
    insertStatusDispatch false false 500 "payload" = [] ∧
    deleteResultsStatusDispatch false false 200 "payload" = [] ∧
    deleteResultsStatusDispatch false false 403 "payload" = [] ∧
    deleteResultsStatusDispatch false false 422 "payload" = [] ∧
    deleteResultsStatusDispatch false false 500 "payload" = [] := by
  decide

/-- C4: a freshly constructed builder serialises to exactly
`?limit=15&page=1`. -/
theorem freshToQueryString : toQueryString newBuilder = "?limit=15&page=1" := by
  decide

/-- C7: the fluent mutators return the builder itself — true of `where`,
`orderBy`, `setLimit`, `setPage`, `incrementPage`, `decrementPage` and
`append`, but `updateVariable` has no `return` statement (Builder.js:196-203)
and evaluates to `undefined`, contradicting its own `@returns {Builder}`
doc comment. -/
theorem fluentReturnValues :
    (newBuilder.whereC "status" (.vstr "active")).2 = JsRet.self ∧
    (newBuilder.orderBy 0 []).2 = .ok JsRet.self ∧
    (newBuilder.setLimit (.vnum 50)).2 = .ok JsRet.self ∧
    (newBuilder.setPage (.vnum 3)).2 = .ok JsRet.self ∧
    (newBuilder.incrementPage).2 = .ok JsRet.self ∧
    (newBuilder.decrementPage).2 = .ok JsRet.self ∧
    (newBuilder.append "flag" (.vnum 1)).2 = .ok JsRet.self ∧
    (newBuilder.updateVariable "limit" (.vnum 20)).2 = .ok JsRet.undef :=
  ⟨rfl, rfl, rfl, rfl, rfl, rfl, rfl, rfl⟩

/-- C9: page arithmetic on a fresh builder — `currentPage()` is 1, one
`incrementPage()` makes it 2, and two `decrementPage()`s from 1 make it -1
(adjustment by exactly one, no lower clamping). -/
theorem pageArithmetic :
    currentPage newBuilder = .ok (.vnum 1) ∧
    currentPage (newBuilder.incrementPage).1 = .ok (.vnum 2) ∧
    currentPage ((newBuilder.decrementPage).1.decrementPage).1 = .ok (.vnum (-1)) :=
  ⟨rfl, rfl, rfl⟩

theorem collGetP_cons (p : Param) (l : List Param) (n : String) :
    collGetP (p :: l) n = if p.name == n then some p else collGetP l n := by
  cases hp : p.name == n <;> simp [collGetP, List.find?_cons, hp]

theorem collGetC_cons (c : Constraint) (l : List Constraint) (f : String) :
    collGetC (c :: l) f = if c.filter == f then some c else collGetC l f := by
  cases hc : c.filter == f <;> simp [collGetC, List.find?_cons, hc]

theorem collGetP_append_of_none (l : List Param) (n : String) (v : JsValue)
    (h : collGetP l n = none) : collGetP (l ++ [⟨n, v⟩]) n = some ⟨n, v⟩ := by
  induction l with
  | nil => simp [collGetP, List.find?]
  | cons p l ih =>
    rw [List.cons_append, collGetP_cons]
    rw [collGetP_cons] at h
    by_cases hp : p.name == n
    · simp [hp] at h
    · simp only [hp, if_neg] at h ⊢
      simp only [Bool.false_eq_true, if_false] at h ⊢
      exact ih h

theorem collGetC_append_of_none (l : List Constraint) (f : String) (v : JsValue)
    (h : collGetC l f = none) : collGetC (l ++ [⟨f, v⟩]) f = some ⟨f, v⟩ := by
  induction l with
  | nil => simp [collGetC, List.find?]
  | cons c l ih =>
    rw [List.cons_append, collGetC_cons]
    rw [collGetC_cons] at h
    by_cases hc : c.filter == f
    · simp [hc] at h
    · simp only [hc, Bool.false_eq_true, if_false] at h ⊢
      exact ih h

theorem collGetP_updateFirstP (l : List Param) (n : String) (v : JsValue) :
    collGetP (updateFirstP n v l) n
      = (collGetP l n).map (fun p => ⟨p.name, v⟩) := by
  induction l with
  | nil => simp [collGetP, updateFirstP, List.find?]
  | cons p l ih =>
    by_cases hp : p.name == n
    · simp [updateFirstP, hp, collGetP_cons]
    · simp [updateFirstP, hp, collGetP_cons, ih]

theorem collGetC_updateFirstC (l : List Constraint) (f : String) (v : JsValue) :
    collGetC (updateFirstC f v l) f
      = (collGetC l f).map (fun c => ⟨c.filter, v⟩) := by
  induction l with
  | nil => simp [collGetC, updateFirstC, List.find?]
  | cons c l ih =>
    by_cases hc : c.filter == f
    · simp [updateFirstC, hc, collGetC_cons]
    · simp [updateFirstC, hc, collGetC_cons, ih]

theorem updateFirstC_map_filter (l : List Constraint) (f : String) (v : JsValue) :
    (updateFirstC f v l).map Constraint.filter = l.map Constraint.filter := by
  induction l with
  | nil => rfl
  | cons c l ih =>
    by_cases hc : c.filter == f
    · simp [updateFirstC, hc]
    · simp [updateFirstC, hc, ih]

theorem updateFirstP_map_name (l : List Param) (n : String) (v : JsValue) :
    (updateFirstP n v l).map Param.name = l.map Param.name := by
  induction l with
  | nil => rfl
  | cons p l ih =>
    by_cases hp : p.name == n
    · simp [updateFirstP, hp]
    · simp [updateFirstP, hp, ih]

theorem hasVariable_eq_false_iff (b : Builder) (n : String) :
    hasVariable b n = false ↔ collGetP b.appends n = none := by
  unfold hasVariable
  cases collGetP b.appends n <;> simp

/-- C10: `orderBy(...orderings)` stores exactly the array of its variadic
arguments as the `order` parameter's value, replacing any previous ordering
wholesale; with zero arguments it stores an empty array, after which
`hasVariable('order')` is true and `orderingBy()` returns an empty list, not
null. -/
theorem orderByStoresArguments (b : Builder) (tag c : Nat) (os : List JsValue) :
    getVariable (b.orderBy tag os).1 "order" .vnull = .varr tag os ∧
    hasVariable (b.orderBy tag os).1 "order" = true ∧
    (b.orderBy tag os).2 = .ok .self ∧
    orderingBy (b.orderBy tag []).1 c = some (.varr c []) := by
  have key : ∀ (os' : List JsValue),
      collGetP (b.orderBy tag os').1.appends "order"
        = some ⟨"order", .varr tag os'⟩ ∧ (b.orderBy tag os').2 = .ok .self := by
    intro os'
    by_cases h : hasVariable b "order"
    · obtain ⟨p, hp⟩ := Option.isSome_iff_exists.mp h
      have : b.updateVariable "order" (.varr tag os')
          = ({ b with appends := updateFirstP "order" (.varr tag os') b.appends },
             .ok .undef) := by
        simp [Builder.updateVariable, h]
      constructor
      · simp only [Builder.orderBy, h, if_pos, this]
        rw [collGetP_updateFirstP, hp]
        have hname : p.name = "order" := by
          have := List.find?_some hp
          simpa using this
        simp [hname]
      · simp [Builder.orderBy, h, this]
    · have hnone : collGetP b.appends "order" = none :=
        (hasVariable_eq_false_iff b "order").mp (by simpa using h)
      have : b.append "order" (.varr tag os')
          = ({ b with appends := b.appends ++ [⟨"order", .varr tag os'⟩] },
             .ok .self) := by
        simp [Builder.append, h]
      constructor
      · simp only [Builder.orderBy, h, if_neg, this]
        exact collGetP_append_of_none _ _ _ hnone
      · simp [Builder.orderBy, h, this]
  have k1 := (key os).1
  have k2 := (key os).2
  have k3 := (key []).1
  refine ⟨?_, ?_, k2, ?_⟩
  · simp [getVariable, hasVariable, k1]
  · simp [hasVariable, k1]
  · have hv : getVariable (b.orderBy tag []).1 "order" .vnull = .varr tag [] := by
      simp [getVariable, hasVariable, k3]
    have hh : hasVariable (b.orderBy tag []).1 "order" = true := by
      simp [hasVariable, k3]
    simp [orderingBy, hh, hv, cloneV, cloneL]

/-- C5: `append(name, value)` throws `DuplicateVariableException` exactly
when the name already exists (otherwise the parameter is inserted and
readable), `updateVariable(name, value)` throws `UnknownVariableException`
exactly when the name does not exist (otherwise the parameter's value is
mutated), and in both error cases the parameter store is unchanged. -/
theorem appendUpdateVariableSpec (b : Builder) (n : String) (v : JsValue) :
    ((b.append n v).2 = .error (.duplicateVariableException
        ("Variable \"" ++ n ++ "\" has already been appended!"))
      ↔ hasVariable b n = true) ∧
    (∀ e, (b.append n v).2 = .error e → (b.append n v).1 = b) ∧
    (hasVariable b n = false →
      hasVariable (b.append n v).1 n = true ∧
      getVariable (b.append n v).1 n .vnull = v) ∧
    ((b.updateVariable n v).2 = .error (.unknownVariableException
        ("Cannot update unknown variable with name \"" ++ n ++ "\"!"))
      ↔ hasVariable b n = false) ∧
    (∀ e, (b.updateVariable n v).2 = .error e → (b.updateVariable n v).1 = b) ∧
    (hasVariable b n = true → getVariable (b.updateVariable n v).1 n .vnull = v) := by
  by_cases h : hasVariable b n
  · obtain ⟨p, hp⟩ := Option.isSome_iff_exists.mp h
    have hupd : collGetP (updateFirstP n v b.appends) n = some ⟨p.name, v⟩ := by
      simp [collGetP_updateFirstP, hp]
    have happ : b.append n v = (b, .error (.duplicateVariableException
        ("Variable \"" ++ n ++ "\" has already been appended!"))) := by
      simp [Builder.append, h]
    have hup : b.updateVariable n v
        = ({ b with appends := updateFirstP n v b.appends }, .ok .undef) := by
      simp [Builder.updateVariable, h]
    refine ⟨by rw [happ]; simp [h], ?_, ?_, ?_, ?_, ?_⟩
    · intro e _; simp [happ]
    · intro hc; rw [hc] at h; exact absurd h (by simp)
    · rw [hup]; simp [h]
    · intro e he; simp [hup] at he
    · intro _; rw [hup]; simp [getVariable, hasVariable, hupd]
  · have hnone : collGetP b.appends n = none :=
      (hasVariable_eq_false_iff b n).mp (by simp at h; exact h)
    have hpush : collGetP (b.appends ++ [⟨n, v⟩]) n = some ⟨n, v⟩ :=
      collGetP_append_of_none _ _ _ hnone
    have happ : b.append n v
        = ({ b with appends := b.appends ++ [⟨n, v⟩] }, .ok .self) := by
      simp [Builder.append, h]
    have hup : b.updateVariable n v = (b, .error (.unknownVariableException
        ("Cannot update unknown variable with name \"" ++ n ++ "\"!"))) := by
      simp [Builder.updateVariable, h]
    refine ⟨?_, ?_, ?_, ?_, ?_, ?_⟩
    · rw [happ]; simp [h]
    · intro e he; rw [happ] at he; simp at he
    · intro _
      constructor
      · rw [happ]; simp [hasVariable, hpush]
      · rw [happ]; simp [getVariable, hasVariable, hpush]
    · simp [hup, h]
    · intro e _; simp [hup]
    · intro hc; exact absurd hc h

/-- Witness for C5 at concrete inputs: `append` on the fresh builder's
existing name `limit` errors and leaves the store unchanged, and on the new
name `flag` inserts; `updateVariable` mirrors this. -/
theorem appendUpdateVariableSpecWitness :
    (((newBuilder.append "limit" (.vnum 0)).2 = .error (.duplicateVariableException
        ("Variable \"" ++ "limit" ++ "\" has already been appended!"))
      ↔ hasVariable newBuilder "limit" = true) ∧
    (∀ e, (newBuilder.append "limit" (.vnum 0)).2 = .error e →
      (newBuilder.append "limit" (.vnum 0)).1 = newBuilder) ∧
    (hasVariable newBuilder "limit" = false →
      hasVariable (newBuilder.append "limit" (.vnum 0)).1 "limit" = true ∧
      getVariable (newBuilder.append "limit" (.vnum 0)).1 "limit" .vnull = .vnum 0) ∧
    ((newBuilder.updateVariable "limit" (.vnum 0)).2 = .error (.unknownVariableException
        ("Cannot update unknown variable with name \"" ++ "limit" ++ "\"!"))
      ↔ hasVariable newBuilder "limit" = false) ∧
    (∀ e, (newBuilder.updateVariable "limit" (.vnum 0)).2 = .error e →
      (newBuilder.updateVariable "limit" (.vnum 0)).1 = newBuilder) ∧
    (hasVariable newBuilder "limit" = true →
      getVariable (newBuilder.updateVariable "limit" (.vnum 0)).1 "limit" .vnull = .vnum 0)) ∧
    ((newBuilder.append "flag" (.vnum 7)).2 = .error (.duplicateVariableException
        ("Variable \"" ++ "flag" ++ "\" has already been appended!"))
      ↔ hasVariable newBuilder "flag" = true) ∧
    (hasVariable newBuilder "flag" = false →
      hasVariable (newBuilder.append "flag" (.vnum 7)).1 "flag" = true ∧
      getVariable (newBuilder.append "flag" (.vnum 7)).1 "flag" .vnull = .vnum 7) ∧
    ((newBuilder.updateVariable "flag" (.vnum 7)).2 = .error (.unknownVariableException
        ("Cannot update unknown variable with name \"" ++ "flag" ++ "\"!"))
      ↔ hasVariable newBuilder "flag" = false) :=
  ⟨appendUpdateVariableSpec newBuilder "limit" (.vnum 0),
   (appendUpdateVariableSpec newBuilder "flag" (.vnum 7)).1,
   (appendUpdateVariableSpec newBuilder "flag" (.vnum 7)).2.2.1,
   (appendUpdateVariableSpec newBuilder "flag" (.vnum 7)).2.2.2.1⟩

theorem updateFirstC_idem (l : List Constraint) (f : String) (v1 v2 : JsValue) :
    updateFirstC f v2 (updateFirstC f v1 l) = updateFirstC f v2 l := by
  induction l with
  | nil => rfl
  | cons c cs ih =>
    by_cases hc : c.filter == f
    · simp [updateFirstC, hc]
    · simp [updateFirstC, hc, ih]

theorem filter_eq_nil_of_collGetC_none (l : List Constraint) (f : String)
    (h : collGetC l f = none) : l.filter (fun c => c.filter == f) = [] := by
  induction l with
  | nil => rfl
  | cons c cs ih =>
    rw [collGetC_cons] at h
    by_cases hc : c.filter == f
    · simp [hc] at h
    · simp only [hc, Bool.false_eq_true, if_false] at h
      simp [List.filter_cons, hc, ih h]

theorem updateFirstC_append_of_none (l : List Constraint) (f : String)
    (v1 v : JsValue) (h : collGetC l f = none) :
    updateFirstC f v (l ++ [⟨f, v1⟩]) = l ++ [⟨f, v⟩] := by
  induction l with
  | nil => simp [updateFirstC]
  | cons c cs ih =>
    rw [collGetC_cons] at h
    by_cases hc : c.filter == f
    · simp [hc] at h
    · simp only [hc, Bool.false_eq_true, if_false] at h
      simp [updateFirstC, hc, ih h]

theorem updateFirstC_filter_of_nodup (l : List Constraint) (f : String)
    (v : JsValue) (c0 : Constraint) (hget : collGetC l f = some c0)
    (hnd : (l.map Constraint.filter).Nodup) :
    ((updateFirstC f v l).filter (fun c => c.filter == f)).map Constraint.value
      = [v] := by
  induction l with
  | nil => simp [collGetC, List.find?] at hget
  | cons c cs ih =>
    rw [collGetC_cons] at hget
    by_cases hc : c.filter == f
    · have hcf : c.filter = f := by simpa using hc
      have hnotin : f ∉ cs.map Constraint.filter := by
        rw [List.map_cons, List.nodup_cons] at hnd
        rw [← hcf]; exact hnd.1
      have hcs : collGetC cs f = none := by
        rw [collGetC, List.find?_eq_none]
        intro x hx hxf
        exact hnotin (List.mem_map.mpr ⟨x, hx, by simpa using hxf⟩)
      have : cs.filter (fun c => c.filter == f) = [] :=
        filter_eq_nil_of_collGetC_none cs f hcs
      simp [updateFirstC, hc, List.filter_cons, this]
    · simp only [hc, Bool.false_eq_true, if_false] at hget
      rw [List.map_cons, List.nodup_cons] at hnd
      simp [updateFirstC, hc, List.filter_cons, ih hget hnd.2]

/-- C6: `where(f, v1); where(f, v2)` leaves exactly one constraint keyed
`f`, its value is `v2`, and the constraint keeps the position `f` first
occupied: the key sequence is unchanged when `f` was already present and
gains `f` at the end otherwise (last write wins by mutation, not
duplication).  The hypothesis is the constraint-store invariant that keys
are unique, which every API-reachable state satisfies. -/
theorem whereLastWriteWins (b : Builder) (f : String) (v1 v2 : JsValue)
    (hnd : (b._constraints.map Constraint.filter).Nodup) :
    ((((b.whereC f v1).1.whereC f v2).1._constraints.filter
        (fun c => c.filter == f)).map Constraint.value = [v2]) ∧
    (((b.whereC f v1).1.whereC f v2).1._constraints.map Constraint.filter
      = (if hasConstraint b f then b._constraints.map Constraint.filter
         else b._constraints.map Constraint.filter ++ [f])) := by
  cases hget : collGetC b._constraints f with
  | none =>
    have hb1 : (b.whereC f v1).1
        = { b with _constraints := b._constraints ++ [⟨f, v1⟩] } := by
      simp [Builder.whereC, hget]
    have hget1 : collGetC (b._constraints ++ [⟨f, v1⟩]) f = some ⟨f, v1⟩ :=
      collGetC_append_of_none _ _ _ hget
    have hb2 : ((b.whereC f v1).1.whereC f v2).1._constraints
        = b._constraints ++ [⟨f, v2⟩] := by
      rw [hb1]
      simp only [Builder.whereC, hget1]
      exact updateFirstC_append_of_none _ _ _ _ hget
    have hfil : b._constraints.filter (fun c => c.filter == f) = [] :=
      filter_eq_nil_of_collGetC_none _ _ hget
    have hhas : hasConstraint b f = false := by simp [hasConstraint, hget]
    constructor
    · rw [hb2, List.filter_append, hfil]
      simp [List.filter_cons]
    · rw [hb2, hhas]
      simp
  | some c0 =>
    have hb1 : (b.whereC f v1).1
        = { b with _constraints := updateFirstC f v1 b._constraints } := by
      simp [Builder.whereC, hget]
    have hget1 : collGetC (updateFirstC f v1 b._constraints) f
        = some ⟨c0.filter, v1⟩ := by
      simp [collGetC_updateFirstC, hget]
    have hb2 : ((b.whereC f v1).1.whereC f v2).1._constraints
        = updateFirstC f v2 b._constraints := by
      rw [hb1]
      simp only [Builder.whereC, hget1]
      exact updateFirstC_idem _ _ _ _
    have hhas : hasConstraint b f = true := by simp [hasConstraint, hget]
    constructor
    · rw [hb2]
      exact updateFirstC_filter_of_nodup _ _ _ _ hget hnd
    · rw [hb2, hhas]
      simp [updateFirstC_map_filter]

/-- Witness for C6: on a builder with an existing `status` constraint and
with a fresh filter name, two successive `where`s leave a single constraint
holding the second value at the original position. -/
theorem whereLastWriteWinsWitness :
    ((((newBuilder.whereC "status" (.vstr "v1")).1.whereC "status" (.vstr "v2")).1._constraints.filter
        (fun c => c.filter == "status")).map Constraint.value = [.vstr "v2"]) ∧
    (((newBuilder.whereC "status" (.vstr "v1")).1.whereC "status" (.vstr "v2")).1._constraints.map Constraint.filter
      = (if hasConstraint newBuilder "status" then newBuilder._constraints.map Constraint.filter
         else newBuilder._constraints.map Constraint.filter ++ ["status"])) :=
  whereLastWriteWins newBuilder "status" (.vstr "v1") (.vstr "v2") (by decide)

/-- Counterexample for C3: after `setLimit(['a','b'])` — a legal call, since
`updateVariable` accepts any value — the first parameter is array-valued, and
`toQueryString` prefixes both of its pairs with `?` (the `first` flag is
cleared per store item, not per emitted pair), diverging from the claimed
`?`-then-`&` separator rule rendered by `specToQueryString`. -/
theorem toQueryStringSepCounterexample :
    toQueryString (newBuilder.setLimit (.varr 0 [.vstr "a", .vstr "b"])).1
      = "?limit[]=a?limit[]=b&page=1" ∧
    specToQueryString (newBuilder.setLimit (.varr 0 [.vstr "a", .vstr "b"])).1
      = "?limit[]=a&limit[]=b&page=1" ∧
    toQueryString (newBuilder.setLimit (.varr 0 [.vstr "a", .vstr "b"])).1
      ≠ specToQueryString (newBuilder.setLimit (.varr 0 [.vstr "a", .vstr "b"])).1 := by
  refine ⟨by decide, by decide, by decide⟩


theorem string_foldl_join (l : List String) (s : String) :
    l.foldl (· ++ ·) s = s ++ String.join l := by
  induction l generalizing s with
  | nil => exact (String.append_empty s).symm
  | cons x l ih =>
    show l.foldl (· ++ ·) (s ++ x) = s ++ String.join (x :: l)
    rw [ih (s ++ x)]
    have hx : String.join (x :: l) = x ++ String.join l := by
      show l.foldl (· ++ ·) ("" ++ x) = x ++ String.join l
      exact ih ("" ++ x)
    rw [hx, String.append_assoc]

theorem string_join_cons (x : String) (l : List String) :
    String.join (x :: l) = x ++ String.join l := by
  show l.foldl (· ++ ·) ("" ++ x) = x ++ String.join l
  exact string_foldl_join l ("" ++ x)

theorem string_join_append (l1 l2 : List String) :
    String.join (l1 ++ l2) = String.join l1 ++ String.join l2 := by
  show (l1 ++ l2).foldl (· ++ ·) "" = String.join l1 ++ String.join l2
  rw [List.foldl_append]
  exact string_foldl_join l2 (l1.foldl (· ++ ·) "")

theorem qsSep_false : qsSep false = "&" := rfl

theorem qsSep_true : qsSep true = "?" := rfl

theorem constraintsFold_false (cs : List Constraint) (s : String) :
    constraintsFold cs (s, false)
      = (s ++ String.join ((cs.map constraintPair).map (fun q => "&" ++ q)),
         false) := by
  induction cs generalizing s with
  | nil => simp [constraintsFold, String.append_empty, String.join]
  | cons c cs ih =>
    show constraintsFold cs (s ++ qsSep false ++ constraintPair c, false) = _
    rw [qsSep_false, ih]
    rw [List.map_cons, List.map_cons, string_join_cons]
    rw [String.append_assoc, String.append_assoc, String.append_assoc]

/-- Generic element loop of the appends iteration with separator fixed to
`&`: every element appends `&` plus its pair. -/
theorem elemsFold_amp {α : Type} (g : α → String) (xs : List α) (s : String) :
    xs.foldl (fun t x => t ++ "&" ++ g x) s
      = s ++ String.join ((xs.map g).map (fun q => "&" ++ q)) := by
  induction xs generalizing s with
  | nil => simp [String.append_empty, String.join]
  | cons x xs ih =>
    show xs.foldl (fun t x => t ++ "&" ++ g x) (s ++ "&" ++ g x) = _
    rw [ih, List.map_cons, List.map_cons, string_join_cons]
    rw [String.append_assoc, String.append_assoc, String.append_assoc]

theorem appendItem_false (p : Param) (s : String) :
    appendItem p (s, false)
      = s ++ String.join ((paramPairs p).map (fun q => "&" ++ q)) := by
  cases hv : p.value with
  | varr tag xs =>
    simp only [appendItem, hv, paramPairs, qsSep_false]
    exact elemsFold_amp (arrPair p.name) xs s
  | vobj tag fs =>
    simp only [appendItem, hv, paramPairs, qsSep_false]
    exact elemsFold_amp (objPair p.name) fs s
  | vnull =>
    simp only [appendItem, hv, paramPairs, qsSep_false, List.map_cons,
      List.map_nil, string_join_cons]
    simp [String.join, String.append_empty, String.append_assoc]
  | vnan =>
    simp only [appendItem, hv, paramPairs, qsSep_false, List.map_cons,
      List.map_nil, string_join_cons]
    simp [String.join, String.append_empty, String.append_assoc]
  | vnum n =>
    simp only [appendItem, hv, paramPairs, qsSep_false, List.map_cons,
      List.map_nil, string_join_cons]
    simp [String.join, String.append_empty, String.append_assoc]
  | vstr str =>
    simp only [appendItem, hv, paramPairs, qsSep_false, List.map_cons,
      List.map_nil, string_join_cons]
    simp [String.join, String.append_empty, String.append_assoc]

theorem appendsFold_false (ps : List Param) (s : String) :
    appendsFold ps (s, false)
      = (s ++ String.join ((ps.flatMap paramPairs).map (fun q => "&" ++ q)),
         false) := by
  induction ps generalizing s with
  | nil => simp [appendsFold, String.append_empty, String.join]
  | cons p ps ih =>
    show appendsFold ps (appendItem p (s, false), false) = _
    rw [appendItem_false, ih]
    rw [List.flatMap_cons, List.map_append, string_join_append]
    rw [String.append_assoc]

/-- C3 (amended): `toQueryString` emits all constraints first in store order
(each as `filters[f][]=v`), then all parameters in store order with
array-valued parameters contributing one `name[]=` pair per element in list
order, with `?` before the very first pair and `&` before every subsequent
pair — provided the first processed item emits exactly one pair (always the
case when a constraint exists or the first parameter is scalar-valued, in
particular in every state where `limit` keeps a scalar value).  Without that
proviso the separator is chosen per store item: every pair of the first item
gets `?`. -/
theorem toQueryStringAmended (b : Builder) (h : headEmitsSingle b = true) :
    toQueryString b = specToQueryString b := by
  cases hc : b._constraints with
  | cons c cs =>
    have ht : toQueryString b
        = (appendsFold b.appends (constraintsFold (c :: cs) ("", true))).1 := by
      rw [toQueryString, hc]
    rw [ht]
    have hcf : constraintsFold (c :: cs) ("", true)
        = constraintsFold cs ("?" ++ constraintPair c, false) := rfl
    rw [hcf, constraintsFold_false, appendsFold_false]
    simp only [specToQueryString, specPairs, hc, List.map_cons, List.cons_append]
    rw [List.map_append, string_join_append]
    simp [String.append_assoc]
  | nil =>
    cases ha : b.appends with
    | nil =>
      have ht : toQueryString b = "" := by rw [toQueryString, hc, ha]; rfl
      have hs : specToQueryString b = "" := by
        simp [specToQueryString, specPairs, hc, ha]
      rw [ht, hs]
    | cons p ps =>
      simp only [headEmitsSingle, hc, ha, List.isEmpty_nil, Bool.not_true,
        Bool.false_or] at h
      have ht : toQueryString b
          = (appendsFold ps (appendItem p ("", true), false)).1 := by
        rw [toQueryString, hc, ha]; rfl
      have hspec : specToQueryString b
          = (match paramPairs p ++ ps.flatMap paramPairs with
             | [] => ""
             | q :: qs => "?" ++ q ++ String.join (qs.map (fun r => "&" ++ r))) := by
        simp [specToQueryString, specPairs, hc, ha]
      cases hv : p.value with
      | varr tag xs =>
        rw [hv] at h
        have hx : ∃ x, xs = [x] := List.length_eq_one.mp (by simpa using h)
        obtain ⟨x, rfl⟩ := hx
        have hi : appendItem p ("", true) = "?" ++ arrPair p.name x := by
          simp only [appendItem, hv, qsSep_true, List.foldl_cons, List.foldl_nil]
          rfl
        rw [ht, hi, appendsFold_false, hspec]
        simp only [paramPairs, hv, List.map_cons, List.map_nil,
          List.cons_append, List.nil_append]
      | vobj tag fs =>
        rw [hv] at h
        have hx : ∃ kv, fs = [kv] := List.length_eq_one.mp (by simpa using h)
        obtain ⟨kv, rfl⟩ := hx
        have hi : appendItem p ("", true) = "?" ++ objPair p.name kv := by
          simp only [appendItem, hv, qsSep_true, List.foldl_cons, List.foldl_nil]
          rfl
        rw [ht, hi, appendsFold_false, hspec]
        simp only [paramPairs, hv, List.map_cons, List.map_nil,
          List.cons_append, List.nil_append]
      | vnull =>
        have hi : appendItem p ("", true) = "?" ++ scalarPair p.name .vnull := by
          simp only [appendItem, hv, qsSep_true]; rfl
        rw [ht, hi, appendsFold_false, hspec]
        simp only [paramPairs, hv, List.cons_append, List.nil_append]
      | vnan =>
        have hi : appendItem p ("", true) = "?" ++ scalarPair p.name .vnan := by
          simp only [appendItem, hv, qsSep_true]; rfl
        rw [ht, hi, appendsFold_false, hspec]
        simp only [paramPairs, hv, List.cons_append, List.nil_append]
      | vnum n =>
        have hi : appendItem p ("", true) = "?" ++ scalarPair p.name (.vnum n) := by
          simp only [appendItem, hv, qsSep_true]; rfl
        rw [ht, hi, appendsFold_false, hspec]
        simp only [paramPairs, hv, List.cons_append, List.nil_append]
      | vstr str =>
        have hi : appendItem p ("", true) = "?" ++ scalarPair p.name (.vstr str) := by
          simp only [appendItem, hv, qsSep_true]; rfl
        rw [ht, hi, appendsFold_false, hspec]
        simp only [paramPairs, hv, List.cons_append, List.nil_append]

/-- Witness for the amended C3 on a builder with one constraint and the
default parameters (matching the spec's own example). -/
theorem toQueryStringAmendedWitness :
    headEmitsSingle (newBuilder.whereC "status" (.vstr "active")).1 = true ∧
    toQueryString (newBuilder.whereC "status" (.vstr "active")).1
      = specToQueryString (newBuilder.whereC "status" (.vstr "active")).1 :=
  ⟨by decide,
   toQueryStringAmended (newBuilder.whereC "status" (.vstr "active")).1 (by decide)⟩

mutual

theorem cloneV_shape (v : JsValue) (c : Nat) :
    shapeV (cloneV v c).1 = shapeV v := by
  cases v with
  | varr t xs => simp [cloneV, shapeV, cloneL_shape xs (c + 1)]
  | vobj t fs => simp [cloneV, shapeV, cloneF_shape fs (c + 1)]
  | vnull => rfl
  | vnan => rfl
  | vnum n => rfl
  | vstr s => rfl

theorem cloneL_shape (l : List JsValue) (c : Nat) :
    shapeL (cloneL l c).1 = shapeL l := by
  cases l with
  | nil => rfl
  | cons v vs =>
    simp [cloneL, shapeL, cloneV_shape v c,
      cloneL_shape vs (cloneV v c).2]

theorem cloneF_shape (l : List (String × JsValue)) (c : Nat) :
    shapeF (cloneF l c).1 = shapeF l := by
  cases l with
  | nil => rfl
  | cons kv fs =>
    simp [cloneF, shapeF, cloneV_shape kv.2 c,
      cloneF_shape fs (cloneV kv.2 c).2]

end

mutual

theorem cloneV_tags (v : JsValue) (c : Nat) :
    c ≤ (cloneV v c).2 ∧ ∀ t, t ∈ tagsV (cloneV v c).1 → c ≤ t := by
  cases v with
  | varr t xs =>
    have h := cloneL_tags xs (c + 1)
    refine ⟨by simpa [cloneV] using Nat.le_of_succ_le h.1, ?_⟩
    intro t ht
    simp only [cloneV, tagsV, List.mem_cons] at ht
    cases ht with
    | inl h0 => exact h0 ▸ Nat.le_refl c
    | inr h0 => exact Nat.le_of_succ_le (h.2 t h0)
  | vobj t fs =>
    have h := cloneF_tags fs (c + 1)
    refine ⟨by simpa [cloneV] using Nat.le_of_succ_le h.1, ?_⟩
    intro t ht
    simp only [cloneV, tagsV, List.mem_cons] at ht
    cases ht with
    | inl h0 => exact h0 ▸ Nat.le_refl c
    | inr h0 => exact Nat.le_of_succ_le (h.2 t h0)
  | vnull => exact ⟨Nat.le_refl c, by intro t ht; simp [cloneV, tagsV] at ht⟩
  | vnan => exact ⟨Nat.le_refl c, by intro t ht; simp [cloneV, tagsV] at ht⟩
  | vnum n => exact ⟨Nat.le_refl c, by intro t ht; simp [cloneV, tagsV] at ht⟩
  | vstr s => exact ⟨Nat.le_refl c, by intro t ht; simp [cloneV, tagsV] at ht⟩

theorem cloneL_tags (l : List JsValue) (c : Nat) :
    c ≤ (cloneL l c).2 ∧ ∀ t, t ∈ tagsL (cloneL l c).1 → c ≤ t := by
  cases l with
  | nil => exact ⟨Nat.le_refl c, by intro t ht; simp [cloneL, tagsL] at ht⟩
  | cons v vs =>
    have h1 := cloneV_tags v c
    have h2 := cloneL_tags vs (cloneV v c).2
    refine ⟨Nat.le_trans h1.1 h2.1, ?_⟩
    intro t ht
    simp only [cloneL, tagsL, List.mem_append] at ht
    cases ht with
    | inl h0 => exact h1.2 t h0
    | inr h0 => exact Nat.le_trans h1.1 (h2.2 t h0)

theorem cloneF_tags (l : List (String × JsValue)) (c : Nat) :
    c ≤ (cloneF l c).2 ∧ ∀ t, t ∈ tagsF (cloneF l c).1 → c ≤ t := by
  cases l with
  | nil => exact ⟨Nat.le_refl c, by intro t ht; simp [cloneF, tagsF] at ht⟩
  | cons kv fs =>
    have h1 := cloneV_tags kv.2 c
    have h2 := cloneF_tags fs (cloneV kv.2 c).2
    refine ⟨Nat.le_trans h1.1 h2.1, ?_⟩
    intro t ht
    simp only [cloneF, tagsF, List.mem_append] at ht
    cases ht with
    | inl h0 => exact h1.2 t h0
    | inr h0 => exact Nat.le_trans h1.1 (h2.2 t h0)

end

mutual

theorem replV_frame (t : Nat) (u v : JsValue) (h : t ∉ tagsV v) :
    replV t u v = v := by
  cases v with
  | varr t' xs =>
    simp only [tagsV, List.mem_cons, not_or] at h
    simp [replV, Ne.symm h.1, replL_frame t u xs h.2]
  | vobj t' fs =>
    simp only [tagsV, List.mem_cons, not_or] at h
    simp [replV, Ne.symm h.1, replF_frame t u fs h.2]
  | vnull => rfl
  | vnan => rfl
  | vnum n => rfl
  | vstr s => rfl

theorem replL_frame (t : Nat) (u : JsValue) (l : List JsValue)
    (h : t ∉ tagsL l) : replL t u l = l := by
  cases l with
  | nil => rfl
  | cons v vs =>
    simp only [tagsL, List.mem_append, not_or] at h
    simp [replL, replV_frame t u v h.1, replL_frame t u vs h.2]

theorem replF_frame (t : Nat) (u : JsValue) (l : List (String × JsValue))
    (h : t ∉ tagsF l) : replF t u l = l := by
  cases l with
  | nil => rfl
  | cons kv fs =>
    simp only [tagsF, List.mem_append, not_or] at h
    simp [replF, replV_frame t u kv.2 h.1, replF_frame t u fs h.2]

end

theorem cloneV_headTag (v : JsValue) (c : Nat) (h : isObject v = true) :
    headTag (cloneV v c).1 = some c := by
  cases v <;> simp_all [cloneV, headTag, isObject]

theorem headTag_mem (v : JsValue) (h : isObject v = true) :
    ∃ t0, headTag v = some t0 ∧ t0 ∈ tagsV v := by
  cases v with
  | varr t xs => exact ⟨t, rfl, by simp [tagsV]⟩
  | vobj t fs => exact ⟨t, rfl, by simp [tagsV]⟩
  | vnull => simp [isObject] at h
  | vnan => simp [isObject] at h
  | vnum n => simp [isObject] at h
  | vstr s => simp [isObject] at h

theorem builderTagsLt_spec (b : Builder) (c : Nat)
    (hb : builderTagsLt b c = true) :
    ∀ w, w ∈ builderValues b → ∀ t, t ∈ tagsV w → t < c := by
  intro w hw t ht
  have h1 := List.all_eq_true.mp hb w hw
  have h2 := List.all_eq_true.mp h1 t ht
  exact of_decide_eq_true h2

theorem mem_builderValues_of_collGetC (b : Builder) (f : String)
    (con : Constraint) (h : collGetC b._constraints f = some con) :
    con.value ∈ builderValues b := by
  have hmem : con ∈ b._constraints := List.mem_of_find?_eq_some h
  exact List.mem_append.mpr (Or.inl (List.mem_map.mpr ⟨con, hmem, rfl⟩))

theorem mem_builderValues_of_collGetP (b : Builder) (n : String)
    (p : Param) (h : collGetP b.appends n = some p) :
    p.value ∈ builderValues b := by
  have hmem : p ∈ b.appends := List.mem_of_find?_eq_some h
  exact List.mem_append.mpr (Or.inr (List.mem_map.mpr ⟨p, hmem, rfl⟩))

/-- A clone drawn from a fresh counter is value-equal, has a different
identity than the stored original, and shares no heap object with any
stored value. -/
theorem clone_fresh_of_stored (b : Builder) (c : Nat)
    (hb : builderTagsLt b c = true) (v : JsValue)
    (hv : v ∈ builderValues b) (hobj : isObject v = true) :
    shapeV (cloneV v c).1 = shapeV v ∧
    headTag (cloneV v c).1 ≠ headTag v ∧
    ∀ t, t ∈ tagsV (cloneV v c).1 → ∀ u w, w ∈ builderValues b →
      replV t u w = w := by
  have hlt := builderTagsLt_spec b c hb
  refine ⟨cloneV_shape v c, ?_, ?_⟩
  · obtain ⟨t0, hht, hmem⟩ := headTag_mem v hobj
    rw [cloneV_headTag v c hobj, hht]
    have ht0 : t0 < c := hlt v hv t0 hmem
    intro heq
    injection heq with heq'
    omega
  · intro t ht u w hw
    apply replV_frame
    intro hmem
    have h1 : c ≤ t := (cloneV_tags v c).2 t ht
    have h2 : t < c := hlt w hw t hmem
    omega

/-- C8: for composite stored values, `getConstraintValue` and `orderingBy`
return deep copies — equal in shape, different in identity, disjoint in heap
objects from the builder's state, so mutations of the returned value leave
every stored value unchanged — and return null when the filter
(respectively the ordering) is unset. -/
theorem deepCopyOnRead (b : Builder) (f : String) (c : Nat)
    (hb : builderTagsLt b c = true) : DeepCopySpec b f c := by
  refine ⟨?_, ?_, ?_, ?_⟩
  · unfold getConstraintValue hasConstraint
    cases collGetC b._constraints f <;> simp
  · intro con hcon hobj
    have key := clone_fresh_of_stored b c hb con.value
      (mem_builderValues_of_collGetC b f con hcon) hobj
    refine ⟨(cloneV con.value c).1, ?_, key.1, key.2.1, key.2.2⟩
    simp [getConstraintValue, hcon, hobj]
  · intro h
    simp [orderingBy, h]
  · intro p hp hobj
    have hhas : hasVariable b "order" = true := by simp [hasVariable, hp]
    have hget : getVariable b "order" .vnull = p.value := by
      simp [getVariable, hasVariable, hp]
    have key := clone_fresh_of_stored b c hb p.value
      (mem_builderValues_of_collGetP b "order" p hp) hobj
    refine ⟨(cloneV p.value c).1, ?_, key.1, key.2.1, key.2.2⟩
    simp [orderingBy, hhas, hget]

/-- Witness for C8 on a builder with an array-valued `tags` constraint and
an ordering: counter 3 is fresh for its tags 0, 1 and 2. -/
theorem deepCopyOnReadWitness :
    builderTagsLt (((newBuilder.whereC "tags" (.varr 0 [.vstr "a"])).1.orderBy 1
        [.vobj 2 [("attribute", .vstr "name")]]).1) 3 = true ∧
    DeepCopySpec (((newBuilder.whereC "tags" (.varr 0 [.vstr "a"])).1.orderBy 1
        [.vobj 2 [("attribute", .vstr "name")]]).1) "tags" 3 :=
  ⟨by decide,
   deepCopyOnRead (((newBuilder.whereC "tags" (.varr 0 [.vstr "a"])).1.orderBy 1
        [.vobj 2 [("attribute", .vstr "name")]]).1) "tags" 3 (by decide)⟩
